import Mathlib

/-!
# Verification of the estiim estimation tool's core logic

Shallow embedding of the shirt-size classifier (`src/src/utils.js` `getShirtSize`),
the computed-hours totals aggregation (`src/src/routes/initiatives.js` POST/PUT
handlers), the client-side cost aggregation (`calculateInitiativeTotalCost`),
the audit differ (`src/public/js/api.js` `getAuditDiffs`), the initiative PUT
audit-append step, and the shirt-size bulk-update audit append
(`routes/shirtSizes.js`).

JavaScript numbers are modelled as rationals (ℚ); JSON objects used as sparse
maps are modelled as association lists `List (String × ℚ)`; `null`/`undefined`
("missing") values are modelled with `Option`.  `JSON.stringify` equality of
two records of the same fixed shape (same key insertion order, canonical
serialization) is modelled as structural equality of the embedding structures.
-/

namespace Estiim

/-- Shirt-size threshold row as returned by
`SELECT size, threshold_hours FROM shirt_sizes`: a `(size, threshold_hours)` pair. -/
abbrev SizeRow := String × ℚ

/-- The loop body of `getShirtSize` (`src/src/utils.js` lines 24-31):
`determinedSize` starts at the accumulator; for each row in order, if
`hours >= size.threshold_hours` the candidate label is replaced by that row's
label, otherwise the loop breaks and the current candidate is returned. -/
def getShirtSizeLoop (hours : ℚ) (acc : String) : List SizeRow → String
  | [] => acc
  | s :: rest => if s.2 ≤ hours then getShirtSizeLoop hours s.1 rest else acc

/-- `getShirtSize` from `src/src/utils.js`: walk the threshold rows (the SQL
query delivers them ordered ascending by `threshold_hours`; here the caller
passes the ordered list) starting from the hardcoded default label `"XS"`. -/
def getShirtSize (hours : ℚ) (sizes : List SizeRow) : String :=
  getShirtSizeLoop hours "XS" sizes

/-- Number of leading threshold rows met by `hours`: the index at which the
`getShirtSize` loop stops (the loop breaks at the first row whose
`threshold_hours` exceeds `hours`). -/
def metCount (hours : ℚ) : List SizeRow → ℕ
  | [] => 0
  | s :: rest => if s.2 ≤ hours then metCount hours rest + 1 else 0

/-- The label `getShirtSize` reports when the loop consumed the first `n` rows:
the label of the last consumed row, or the default `"XS"` when `n = 0`. -/
def labelFromCount (sizes : List SizeRow) (n : ℕ) : String :=
  (((sizes.take n).getLast?).map Prod.fst).getD "XS"

theorem getLast_cons_map_getD {α β : Type} (f : α → β) (a : β) (s : α) (t : List α) :
    (((s :: t).getLast?).map f).getD a = ((t.getLast?).map f).getD (f s) := by
  cases t with
  | nil => rfl
  | cons x xs =>
    rw [List.getLast?_cons_cons]
    cases h : (x :: xs).getLast? with
    | none => simp at h
    | some v => simp

theorem getShirtSizeLoop_eq_labelFromCount (hours : ℚ) (acc : String) (sizes : List SizeRow) :
    getShirtSizeLoop hours acc sizes =
      (((sizes.take (metCount hours sizes)).getLast?).map Prod.fst).getD acc := by
  induction sizes generalizing acc with
  | nil => rfl
  | cons s rest ih =>
    by_cases h : s.2 ≤ hours
    · simp only [getShirtSizeLoop, metCount, if_pos h, List.take_succ_cons]
      rw [ih, getLast_cons_map_getD]
    · simp only [getShirtSizeLoop, metCount, if_neg h, List.take_zero, List.getLast?_nil,
        Option.map_none', Option.getD_none]

theorem getShirtSizeLoop_eq_filter (hours : ℚ) (acc : String) (sizes : List SizeRow)
    (hsorted : sizes.Pairwise (fun a b => a.2 ≤ b.2)) :
    getShirtSizeLoop hours acc sizes =
      (((sizes.filter (fun s => decide (s.2 ≤ hours))).getLast?).map Prod.fst).getD acc := by
  induction sizes generalizing acc with
  | nil => rfl
  | cons s rest ih =>
    rw [List.pairwise_cons] at hsorted
    by_cases h : s.2 ≤ hours
    · rw [show (s :: rest).filter (fun s => decide (s.2 ≤ hours)) =
          s :: rest.filter (fun s => decide (s.2 ≤ hours)) from List.filter_cons_of_pos
            (by simpa using h)]
      rw [getShirtSizeLoop, if_pos h, ih s.1 hsorted.2, getLast_cons_map_getD]
    · have hnil : rest.filter (fun s => decide (s.2 ≤ hours)) = [] := by
        rw [List.filter_eq_nil_iff]
        intro a ha
        simp only [decide_eq_true_eq]
        intro hle
        exact h (le_trans (hsorted.1 a ha) hle)
      rw [show (s :: rest).filter (fun s => decide (s.2 ≤ hours)) =
          rest.filter (fun s => decide (s.2 ≤ hours)) from List.filter_cons_of_neg
            (by simpa using h)]
      rw [hnil, getShirtSizeLoop, if_neg h]
      rfl

/-- C1 (amended).  For a threshold list sorted ascending by `threshold_hours`,
`getShirtSize` returns the label of the last (hence largest) threshold row whose
`threshold_hours` is `≤ totalHours`; when no threshold is met — in particular
for any negative `totalHours` against non-negative thresholds, and for the
empty list — it returns the hardcoded default label `"XS"` (not the label of
the smallest threshold in the list). -/
theorem getShirtSize_spec (sizes : List SizeRow) (hours : ℚ)
    (hsorted : sizes.Pairwise (fun a b => a.2 ≤ b.2)) :
    getShirtSize hours sizes =
      (((sizes.filter (fun s => decide (s.2 ≤ hours))).getLast?).map Prod.fst).getD "XS" :=
  getShirtSizeLoop_eq_filter hours "XS" sizes hsorted

/-- Witness for `getShirtSize_spec` at a concrete sorted list and hours value. -/
theorem getShirtSize_spec_witness :
    ([("XS", (0 : ℚ)), ("S", 40)] : List SizeRow).Pairwise (fun a b => a.2 ≤ b.2) ∧
    getShirtSize 50 [("XS", (0 : ℚ)), ("S", 40)] =
      ((([("XS", (0 : ℚ)), ("S", 40)].filter
          (fun s => decide (s.2 ≤ (50 : ℚ)))).getLast?).map Prod.fst).getD "XS" :=
  ⟨by norm_num [List.pairwise_cons],
   getShirtSize_spec [("XS", (0 : ℚ)), ("S", 40)] 50 (by norm_num [List.pairwise_cons])⟩

/-- C1 counterexample.  With the (trivially sorted-ascending) threshold list
`[("A", 5)]` and `totalHours = 0`, no threshold is met; the claim says the
classifier then returns the label of the smallest threshold, `"A"`, but the
code returns the hardcoded default `"XS"`. -/
theorem getShirtSize_default_not_smallest_label :
    getShirtSize 0 [("A", (5 : ℚ))] = "XS" ∧ "XS" ≠ "A" := by
  constructor
  · norm_num [getShirtSize, getShirtSizeLoop]
  · decide

/-- The default shirt-size threshold table seeded on first run. -/
def standardSizes : List SizeRow :=
  [("XS", 0), ("S", 40), ("M", 80), ("L", 160), ("XL", 320), ("XXL", 640)]

/-- C6.  A `totalHours` exactly equal to a threshold value is met (the loop's
comparison is the inclusive `hours >= size.threshold_hours`): with the standard
thresholds, `classify 40 = "S"`, `classify 39.9 = "XS"`, `classify 1000 = "XXL"`. -/
theorem getShirtSize_inclusive_boundary :
    getShirtSize 40 standardSizes = "S" ∧
    getShirtSize (39.9 : ℚ) standardSizes = "XS" ∧
    getShirtSize 1000 standardSizes = "XXL" := by
  refine ⟨?_, ?_, ?_⟩ <;> norm_num [standardSizes, getShirtSize, getShirtSizeLoop]

theorem metCount_mono (sizes : List SizeRow) (h1 h2 : ℚ) (h12 : h1 ≤ h2) :
    metCount h1 sizes ≤ metCount h2 sizes := by
  induction sizes with
  | nil => exact le_refl 0
  | cons s rest ih =>
    by_cases h : s.2 ≤ h1
    · rw [metCount, if_pos h, metCount, if_pos (le_trans h h12)]
      exact Nat.succ_le_succ ih
    · rw [metCount, if_neg h]
      exact Nat.zero_le _

/-- C7.  For every threshold list sorted ascending and all `0 ≤ h1 ≤ h2`, the
number of thresholds met is monotone (`metCount h1 ≤ metCount h2`), and the
classifier's result is exactly the label of the last met threshold
(`labelFromCount` at `metCount`), so the result for `h1` never corresponds to a
larger threshold than the result for `h2`. -/
theorem getShirtSize_monotone (sizes : List SizeRow) (h1 h2 : ℚ)
    (hsorted : sizes.Pairwise (fun a b => a.2 ≤ b.2)) (h0 : 0 ≤ h1) (h12 : h1 ≤ h2) :
    metCount h1 sizes ≤ metCount h2 sizes ∧
    getShirtSize h1 sizes = labelFromCount sizes (metCount h1 sizes) ∧
    getShirtSize h2 sizes = labelFromCount sizes (metCount h2 sizes) :=
  ⟨metCount_mono sizes h1 h2 h12,
   getShirtSizeLoop_eq_labelFromCount h1 "XS" sizes,
   getShirtSizeLoop_eq_labelFromCount h2 "XS" sizes⟩

/-- Witness for `getShirtSize_monotone` at the standard thresholds with
`h1 = 10` and `h2 = 50`. -/
theorem getShirtSize_monotone_witness :
    standardSizes.Pairwise (fun a b => a.2 ≤ b.2) ∧ (0 : ℚ) ≤ 10 ∧ (10 : ℚ) ≤ 50 ∧
    (metCount 10 standardSizes ≤ metCount 50 standardSizes ∧
     getShirtSize 10 standardSizes = labelFromCount standardSizes (metCount 10 standardSizes) ∧
     getShirtSize 50 standardSizes = labelFromCount standardSizes (metCount 50 standardSizes)) :=
  ⟨by norm_num [standardSizes, List.pairwise_cons], by norm_num, by norm_num,
   getShirtSize_monotone standardSizes 10 50
     (by norm_num [standardSizes, List.pairwise_cons]) (by norm_num) (by norm_num)⟩

/-! ## Totals aggregation (computed hours and cost) -/

/-- A `selected_factors` entry as sent in a create/update request and as stored
by the factor picker (`addFactor` in the client): `factorId`, `quantity`,
cached `name`, and a cached `hoursPerResourceType` snapshot (a sparse map
modelled as an association list; a missing/`null` map is `none`). -/
structure SelFactor where
  factorId : String
  quantity : Option ℚ
  name : String
  hoursPerResourceType : Option (List (String × ℚ))
deriving DecidableEq

/-- The `manual_resources` record of a request/initiative:
`manualHours` and `manualValues` sparse maps, each possibly absent. -/
structure ReqManualResources where
  manualHours : Option (List (String × ℚ))
  manualValues : Option (List (String × ℚ))
deriving DecidableEq

/-- JavaScript `factor.quantity || 1`: `1` when the quantity is missing or
falsy (`0`), the quantity itself otherwise. -/
def jsQty (q : Option ℚ) : ℚ :=
  match q with
  | none => 1
  | some v => if v = 0 then 1 else v

/-- Sum of the values of a sparse map (`Object.values(m).reduce((s, h) => s + h, 0)`);
an absent map contributes `0`. -/
def optValuesSum (m : Option (List (String × ℚ))) : ℚ :=
  ((m.getD []).map Prod.snd).sum

/-- The computed-hours loop of `POST /api/initiatives` and
`PUT /api/initiatives/:id` (`src/src/routes/initiatives.js` lines 162-176 and
239-253): starting from `0`, for each selected factor whose
`hoursPerResourceType` is present, add the sum of its hour values times
`quantity || 1`; then, when `manual_resources` and its `manualHours` are
present, add the sum of the manual hour values. -/
def computedHoursRaw (selected_factors : List SelFactor)
    (manual_resources : Option ReqManualResources) : ℚ :=
  let afterFactors := selected_factors.foldl
    (fun acc f =>
      match f.hoursPerResourceType with
      | none => acc
      | some m => acc + (m.map Prod.snd).sum * jsQty f.quantity) 0
  match manual_resources with
  | none => afterFactors
  | some mr =>
    match mr.manualHours with
    | none => afterFactors
    | some mh => afterFactors + (mh.map Prod.snd).sum

theorem foldl_add_factorHours (l : List SelFactor) (a : ℚ) :
    l.foldl
      (fun acc f =>
        match f.hoursPerResourceType with
        | none => acc
        | some m => acc + (m.map Prod.snd).sum * jsQty f.quantity) a =
    a + (l.map (fun f => optValuesSum f.hoursPerResourceType * jsQty f.quantity)).sum := by
  induction l generalizing a with
  | nil => simp
  | cons f rest ih =>
    rw [List.foldl_cons, List.map_cons, List.sum_cons]
    cases hm : f.hoursPerResourceType with
    | none => rw [ih]; simp [hm, optValuesSum]
    | some m => rw [ih]; simp [hm, optValuesSum]; ring

/-- C2.  The computed total hours equals the sum over selected factors of (the
sum of that factor's `hoursPerResourceType` values) times its quantity —
defaulting to `1` when missing or falsy — plus the sum of the
`manualResources.manualHours` values; and the `manualValues` component never
contributes (the equation's right-hand side mentions neither `manualValues`
nor any value-per-resource-type data, and replacing `manualValues` leaves the
total unchanged). -/
theorem computedHoursRaw_spec (selected_factors : List SelFactor)
    (manual_resources : Option ReqManualResources) :
    computedHoursRaw selected_factors manual_resources =
      (selected_factors.map
        (fun f => optValuesSum f.hoursPerResourceType * jsQty f.quantity)).sum +
      optValuesSum (manual_resources.bind ReqManualResources.manualHours) ∧
    (∀ mh mv mv' : Option (List (String × ℚ)),
      computedHoursRaw selected_factors (some ⟨mh, mv⟩) =
      computedHoursRaw selected_factors (some ⟨mh, mv'⟩)) := by
  constructor
  · show computedHoursRaw selected_factors manual_resources = _
    unfold computedHoursRaw
    rw [foldl_add_factorHours]
    cases manual_resources with
    | none => simp [optValuesSum]
    | some mr =>
      cases hm : mr.manualHours with
      | none => simp [hm, optValuesSum]
      | some mh => simp [hm, optValuesSum]
  · intro mh mv mv'
    unfold computedHoursRaw
    cases mh <;> rfl

/-! ## Rounding and the create/update pipeline (C8) -/

/-- `parseFloat(x.toFixed(1))`: round to the nearest multiple of one tenth
(ties toward the larger value, as `toFixed` specifies). -/
def roundTo1 (x : ℚ) : ℚ :=
  (round (10 * x) : ℤ) / 10

/-- The create/update computed-hours pipeline
(`src/src/routes/initiatives.js` lines 162-180 and 239-257, and
`src/backend/estiim-api.js` lines 318-340): compute the raw total, round it to
one decimal place, classify the rounded value, and persist the pair
`(computed_hours, shirt_size)`. -/
def initiativeSaveResult (selected_factors : List SelFactor)
    (manual_resources : Option ReqManualResources) (sizes : List SizeRow) : ℚ × String :=
  let computedHours := roundTo1 (computedHoursRaw selected_factors manual_resources)
  (computedHours, getShirtSize computedHours sizes)

/-- C8.  On every create or update, the persisted `computed_hours` is the raw
total rounded to exactly one decimal place — it is an integer multiple of one
tenth and within `1/20` of the raw total — and the shirt size is computed from
that already-rounded value. -/
theorem initiativeSaveResult_rounds_first (selected_factors : List SelFactor)
    (manual_resources : Option ReqManualResources) (sizes : List SizeRow) :
    (initiativeSaveResult selected_factors manual_resources sizes).1 =
      roundTo1 (computedHoursRaw selected_factors manual_resources) ∧
    (∃ k : ℤ, (initiativeSaveResult selected_factors manual_resources sizes).1 = (k : ℚ) / 10) ∧
    |(initiativeSaveResult selected_factors manual_resources sizes).1 -
      computedHoursRaw selected_factors manual_resources| ≤ 1 / 20 ∧
    (initiativeSaveResult selected_factors manual_resources sizes).2 =
      getShirtSize (initiativeSaveResult selected_factors manual_resources sizes).1 sizes := by
  refine ⟨rfl, ⟨round (10 * computedHoursRaw selected_factors manual_resources), rfl⟩, ?_, rfl⟩
  show |roundTo1 (computedHoursRaw selected_factors manual_resources) - _| ≤ 1 / 20
  set x := computedHoursRaw selected_factors manual_resources with hx
  have h : |(round (10 * x) : ℚ) - 10 * x| ≤ 1 / 2 := by
    rw [abs_sub_comm]
    exact abs_sub_round (10 * x)
  have h10 : roundTo1 x - x = ((round (10 * x) : ℚ) - 10 * x) / 10 := by
    unfold roundTo1
    ring
  rw [h10, abs_div]
  rw [show |(10 : ℚ)| = 10 by norm_num]
  linarith [h]

/-! ## Client-side cost aggregation (`calculateInitiativeTotalCost`) -/

/-- An estimation factor row from the factor catalog (`window.efList`). -/
structure EstimationFactor where
  id : String
  hoursPerResourceType : Option (List (String × ℚ))
  valuePerResourceType : Option (List (String × ℚ))
deriving DecidableEq

/-- A resource type row from `window.rtList`; `resource_cost` may be undefined. -/
structure ResourceType where
  id : String
  name : String
  resource_cost : Option ℚ
deriving DecidableEq

/-- `window.rtList?.find(rt => rt.id === resourceId)?.resource_cost || 0`:
the cost of a resource type, `0` when the resource type is unknown or has no
cost defined. -/
def costOf (rtList : List ResourceType) (resourceId : String) : ℚ :=
  (((rtList.find? (fun rt => rt.id = resourceId)).bind ResourceType.resource_cost).getD 0)

/-- Cost contribution of one sparse `resourceId → amount` map: entries with a
positive amount contribute `amount × cost(resourceId)` (the code guards each
entry with `if (amount > 0)`). -/
def mapCost (rtList : List ResourceType) (m : Option (List (String × ℚ))) : ℚ :=
  ((m.getD []).map (fun p => if 0 < p.2 then p.2 * costOf rtList p.1 else 0)).sum

/-- Cost contribution of one resolved factor in `calculateInitiativeTotalCost`:
labour costs from `hoursPerResourceType` plus non-labour costs from
`valuePerResourceType` (each defaulted to the empty map when absent). -/
def factorCost (rtList : List ResourceType) (f : EstimationFactor) : ℚ :=
  mapCost rtList f.hoursPerResourceType + mapCost rtList f.valuePerResourceType

/-- `calculateInitiativeTotalCost` from `src/public/js/api.js` (client side):
for each entry of the initiative's `selected_factors` list, resolve the id
against the factor catalog — an unresolved id is skipped (`if (factor)`)
— and add that factor's labour and non-labour costs; then add the costs of the
manual hours and manual values, when present. -/
def calculateInitiativeTotalCost (efList : List EstimationFactor)
    (rtList : List ResourceType) (selected_factors : List String)
    (manual_resources : Option ReqManualResources) : ℚ :=
  (selected_factors.map
    (fun factorId =>
      match efList.find? (fun ef => ef.id = factorId) with
      | none => 0
      | some factor => factorCost rtList factor)).sum +
  (match manual_resources with
   | none => 0
   | some md => mapCost rtList md.manualHours + mapCost rtList md.manualValues)

/-- C3.  A `selected_factors` entry whose `factorId` does not resolve against
the factor catalog contributes `0` to the total: the aggregation (a total
function — it raises no error) gives the same result with and without the
dangling entry, and the entries before and after it are still processed. -/
theorem calculateInitiativeTotalCost_dangling (efList : List EstimationFactor)
    (rtList : List ResourceType) (pre post : List String) (ghost : String)
    (manual_resources : Option ReqManualResources)
    (hghost : ∀ ef ∈ efList, ef.id ≠ ghost) :
    calculateInitiativeTotalCost efList rtList (pre ++ ghost :: post) manual_resources =
      calculateInitiativeTotalCost efList rtList (pre ++ post) manual_resources := by
  have hfind : efList.find? (fun ef => decide (ef.id = ghost)) = none := by
    rw [List.find?_eq_none]
    intro ef hef
    simpa using hghost ef hef
  unfold calculateInitiativeTotalCost
  rw [List.map_append, List.map_append, List.map_cons, List.sum_append, List.sum_append,
    List.sum_cons, hfind]
  simp

/-- Witness for `calculateInitiativeTotalCost_dangling`: a one-factor catalog,
a dangling id `"ghost"` between two resolvable entries. -/
theorem calculateInitiativeTotalCost_dangling_witness :
    (∀ ef ∈ [({ id := "f1", hoursPerResourceType := some [("dev", 8)],
                valuePerResourceType := none } : EstimationFactor)], ef.id ≠ "ghost") ∧
    calculateInitiativeTotalCost
      [{ id := "f1", hoursPerResourceType := some [("dev", 8)], valuePerResourceType := none }]
      [{ id := "dev", name := "Developer", resource_cost := some 100 }]
      (["f1"] ++ "ghost" :: ["f1"]) none =
    calculateInitiativeTotalCost
      [{ id := "f1", hoursPerResourceType := some [("dev", 8)], valuePerResourceType := none }]
      [{ id := "dev", name := "Developer", resource_cost := some 100 }]
      (["f1"] ++ ["f1"]) none :=
  ⟨by intro ef hef; simp at hef; rw [hef]; decide,
   calculateInitiativeTotalCost_dangling _ _ _ _ _ _
     (by intro ef hef; simp at hef; rw [hef]; decide)⟩

/-! ## Audit differ (`getAuditDiffs`, `src/public/js/api.js` lines 1781-1901) -/

/-- One rendered change line of the audit differ; each constructor stands for
one of the `diffs.push(...)` call sites in `getAuditDiffs`, carrying the data
that is interpolated into the rendered string. -/
inductive DiffLine where
  | changedScalar (key oldV newV : String)
  | changedDate (key oldDate newDate : String)
  | changedNumeric (key : String) (oldV newV : Option ℚ)
  | changedHoursStr (key oldV newV : String)
  | addedCategories (cats : List String)
  | removedCategories (cats : List String)
  | addedFactor (name : String) (qty : Option ℚ)
  | changedQuantity (name : String) (oldQ newQ : Option ℚ)
  | removedFactor (name : String) (qty : Option ℚ)
  | addedManualHours (resourceName : String) (v : ℚ)
  | removedManualHours (resourceName : String) (was : ℚ)
  | changedManualHours (resourceName : String) (o n : ℚ)
  | addedManualValue (resourceName : String) (v : ℚ)
  | removedManualValue (resourceName : String) (was : ℚ)
  | changedManualValue (resourceName : String) (o n : ℚ)
deriving DecidableEq

/-- JavaScript `String(v || '')` on a string-or-null value. -/
def jsStr (v : Option String) : String := v.getD ""

/-- Generic tracked-key comparison: emit one changed line when the
stringified values differ. -/
def strFieldDiff (key : String) (o n : Option String) : List DiffLine :=
  if jsStr o = jsStr n then [] else [DiffLine.changedScalar key (jsStr o) (jsStr n)]

/-- Date-key comparison: compare only the first 10 characters
(`(v || '').substring(0, 10)`, the `YYYY-MM-DD` portion). -/
def dateFieldDiff (key : String) (o n : Option String) : List DiffLine :=
  if (jsStr o).take 10 = (jsStr n).take 10 then []
  else [DiffLine.changedDate key ((jsStr o).take 10) ((jsStr n).take 10)]

/-- Numeric-key comparison (`estimated_duration`, `priority_num`): `null` is
replaced by `''` before a strict comparison, so `null` equals only `null` and a
number equals only the same number. -/
def numFieldDiff (key : String) (o n : Option ℚ) : List DiffLine :=
  if o = n then [] else [DiffLine.changedNumeric key o n]

/-- The `computed_hours` key also flows through the numeric branch, but its
values are the `toFixed(1)` strings: the strict comparison is string equality
with `null` as `''`. -/
def hoursStrFieldDiff (key : String) (o n : Option String) : List DiffLine :=
  if jsStr o = jsStr n then [] else [DiffLine.changedHoursStr key (jsStr o) (jsStr n)]

/-- Categories comparison: one added line for the categories present only in
the new list and one removed line for those present only in the old list. -/
def categoriesDiff (o n : List String) : List DiffLine :=
  let added := n.filter (fun cat => !(o.contains cat))
  let removed := o.filter (fun cat => !(n.contains cat))
  (if added.length > 0 then [DiffLine.addedCategories added] else []) ++
  (if removed.length > 0 then [DiffLine.removedCategories removed] else [])

/-- `[...factors].sort((a, b) => (a?.factorId || '').localeCompare(b?.factorId || ''))`:
a stable sort of the factor list by `factorId`. -/
def sortByFactorId (l : List SelFactor) : List SelFactor :=
  List.insertionSort (fun a b => a.factorId ≤ b.factorId) l

/-- The selected-factor comparison of `getAuditDiffs`: when the two lists,
sorted by `factorId`, serialize identically, no line is emitted; otherwise each
new factor missing from the old list (by `factorId`) yields an added line, each
factor present in both with a different quantity yields one changed-quantity
line, and each old factor missing from the new list yields a removed line. -/
def factorsDiff (oldFactors newFactors : List SelFactor) : List DiffLine :=
  if sortByFactorId oldFactors = sortByFactorId newFactors then []
  else
    newFactors.filterMap
      (fun nf =>
        match oldFactors.find? (fun oldF => oldF.factorId = nf.factorId) with
        | none => some (DiffLine.addedFactor nf.name nf.quantity)
        | some oldF =>
          if oldF.quantity ≠ nf.quantity then
            some (DiffLine.changedQuantity nf.name oldF.quantity nf.quantity)
          else none) ++
    oldFactors.filterMap
      (fun oldF =>
        match newFactors.find? (fun nf => nf.factorId = oldF.factorId) with
        | none => some (DiffLine.removedFactor oldF.name oldF.quantity)
        | some _ => none)

/-- Parsed `manual_resources` of a stored audit snapshot
(`JSON.parse(data.manual_resources || '{}')` with `manualHours || {}` and
`manualValues || {}`). -/
structure ManualSnap where
  manualHours : List (String × ℚ)
  manualValues : List (String × ℚ)
deriving DecidableEq

/-- JavaScript `m[resourceId] || 0` on a sparse map. -/
def lookupOr0 (m : List (String × ℚ)) (k : String) : ℚ :=
  ((m.find? (fun p => p.1 = k)).map Prod.snd).getD 0

/-- `window.rtList?.find(r => r.id === resourceId)?.name || resourceId`. -/
def resourceNameOf (rtList : List ResourceType) (resourceId : String) : String :=
  match (rtList.find? (fun r => r.id = resourceId)).map ResourceType.name with
  | none => resourceId
  | some s => if s = "" then resourceId else s

/-- Manual-hours comparison: iterate the union of resource ids (old keys then
new keys, first occurrences); `0/absent → positive` is added, `positive →
0/absent` is removed, any other difference is changed. -/
def manualHoursDiff (rtList : List ResourceType)
    (oldH newH : List (String × ℚ)) : List DiffLine :=
  ((oldH.map Prod.fst ++ newH.map Prod.fst).eraseDups).filterMap
    (fun resourceId =>
      let oldVal := lookupOr0 oldH resourceId
      let newVal := lookupOr0 newH resourceId
      let resourceName := resourceNameOf rtList resourceId
      if oldVal = 0 ∧ 0 < newVal then some (DiffLine.addedManualHours resourceName newVal)
      else if 0 < oldVal ∧ newVal = 0 then some (DiffLine.removedManualHours resourceName oldVal)
      else if oldVal ≠ newVal then some (DiffLine.changedManualHours resourceName oldVal newVal)
      else none)

/-- Manual-values comparison, same shape as `manualHoursDiff` for the
non-labour unit counts. -/
def manualValuesDiff (rtList : List ResourceType)
    (oldV newV : List (String × ℚ)) : List DiffLine :=
  ((oldV.map Prod.fst ++ newV.map Prod.fst).eraseDups).filterMap
    (fun resourceId =>
      let oldVal := lookupOr0 oldV resourceId
      let newVal := lookupOr0 newV resourceId
      let resourceName := resourceNameOf rtList resourceId
      if oldVal = 0 ∧ 0 < newVal then some (DiffLine.addedManualValue resourceName newVal)
      else if 0 < oldVal ∧ newVal = 0 then some (DiffLine.removedManualValue resourceName oldVal)
      else if oldVal ≠ newVal then some (DiffLine.changedManualValue resourceName oldVal newVal)
      else none)

/-- Manual-resources section of `getAuditDiffs`: gated by the serialized
comparison of the two parsed records, then the per-resource hour and value
comparisons. -/
def manualDiff (rtList : List ResourceType) (o n : ManualSnap) : List DiffLine :=
  if o = n then []
  else manualHoursDiff rtList o.manualHours n.manualHours ++
       manualValuesDiff rtList o.manualValues n.manualValues

/-- The audit snapshot record written by `PUT /api/initiatives/:id` as
`old_data`/`new_data` and consumed by `getAuditDiffs`.  String-serialized
collection fields (`selected_factors`, `categories`, `manual_resources`) are
modelled by their parsed values; the canonical JSON serialization of this
fixed-shape record is injective, so `JSON.stringify` equality is structural
equality. -/
structure AuditSnapshot where
  name : Option String
  custom_id : Option String
  description : Option String
  priority : Option String
  priority_num : Option ℚ
  status : Option String
  estimation_type : Option String
  classification : Option String
  scope : Option String
  out_of_scope : Option String
  computed_hours : Option String
  shirt_size : Option String
  start_date : Option String
  end_date : Option String
  estimated_duration : Option ℚ
  categories : List String
  selected_factors : List SelFactor
  manual_resources : ManualSnap
deriving DecidableEq

/-- `getAuditDiffs(oldData, newData)` from `src/public/js/api.js`: the tracked
scalar keys in `keysToCompare` order, then the selected-factor comparison, then
the manual-resources comparison.  `window.rtList` (used only for display
names) is passed explicitly. -/
def getAuditDiffs (rtList : List ResourceType)
    (oldData newData : AuditSnapshot) : List DiffLine :=
  strFieldDiff "name" oldData.name newData.name ++
  strFieldDiff "custom_id" oldData.custom_id newData.custom_id ++
  strFieldDiff "description" oldData.description newData.description ++
  strFieldDiff "priority" oldData.priority newData.priority ++
  numFieldDiff "priority_num" oldData.priority_num newData.priority_num ++
  strFieldDiff "status" oldData.status newData.status ++
  strFieldDiff "estimation_type" oldData.estimation_type newData.estimation_type ++
  strFieldDiff "classification" oldData.classification newData.classification ++
  strFieldDiff "scope" oldData.scope newData.scope ++
  strFieldDiff "out_of_scope" oldData.out_of_scope newData.out_of_scope ++
  hoursStrFieldDiff "computed_hours" oldData.computed_hours newData.computed_hours ++
  strFieldDiff "shirt_size" oldData.shirt_size newData.shirt_size ++
  dateFieldDiff "start_date" oldData.start_date newData.start_date ++
  dateFieldDiff "end_date" oldData.end_date newData.end_date ++
  numFieldDiff "estimated_duration" oldData.estimated_duration newData.estimated_duration ++
  categoriesDiff oldData.categories newData.categories ++
  factorsDiff oldData.selected_factors newData.selected_factors ++
  manualDiff rtList oldData.manual_resources newData.manual_resources

/-! ## The PUT /api/initiatives/:id audit-append step (C4) -/

/-- A persisted journal entry: a free-text comment or an audit record with the
old and new snapshots (timestamps are outside the model). -/
inductive JournalEntry where
  | comment (text : String)
  | audit (action : String) (old_data new_data : AuditSnapshot)
deriving DecidableEq

/-- The audit-append step of `PUT /api/initiatives/:id`
(`src/src/routes/initiatives.js` lines 347-355): starting from the request's
journal entries, append one `updated` audit entry exactly when
`JSON.stringify(oldDataForAudit) !== JSON.stringify(newDataForAudit)`
(modelled as structural inequality of the snapshots). -/
def putJournalEntries (reqJournal : List JournalEntry)
    (oldDataForAudit newDataForAudit : AuditSnapshot) : List JournalEntry :=
  if oldDataForAudit ≠ newDataForAudit then
    reqJournal ++ [JournalEntry.audit "updated" oldDataForAudit newDataForAudit]
  else reqJournal

/-! ## Shirt-size bulk update audit (C9) -/

/-- A row of the `shirt_size_audit` table: the action and the full old/new
threshold arrays captured as `old_data`/`new_data` (the `JSON.stringify` of the
arrays is modelled by the arrays themselves). -/
structure ShirtSizeAuditRow where
  action : String
  old_data : List SizeRow
  new_data : List SizeRow
deriving DecidableEq

/-- The persistent state touched by `PUT /api/shirt-sizes`: the `shirt_sizes`
table and the `shirt_size_audit` table. -/
structure ShirtSizesState where
  shirt_sizes : List SizeRow
  audit : List ShirtSizeAuditRow
deriving DecidableEq

/-- `PUT /api/shirt-sizes` (`routes/shirtSizes.js` lines 29-63): for each
submitted size, update the matching row's `threshold_hours`
(`UPDATE shirt_sizes SET threshold_hours=? WHERE size=?`), then insert one
`shirt_size_audit` row whose `old_data` is the entire pre-update array and
whose `new_data` is the entire submitted array. -/
def putShirtSizes (st : ShirtSizesState) (newSizes : List SizeRow) : ShirtSizesState :=
  let updated := newSizes.foldl
    (fun rows ns => rows.map (fun r => if r.1 = ns.1 then (r.1, ns.2) else r))
    st.shirt_sizes
  { shirt_sizes := updated,
    audit := st.audit ++ [{ action := "updated", old_data := st.shirt_sizes,
                            new_data := newSizes }] }

/-- C9.  Every bulk update of the thresholds appends exactly one audit row —
the audit table grows by one, the earlier rows are untouched — and that row's
`old_data` is the entire old threshold array while its `new_data` is the
entire submitted threshold array. -/
theorem putShirtSizes_audit (st : ShirtSizesState) (newSizes : List SizeRow) :
    (putShirtSizes st newSizes).audit.length = st.audit.length + 1 ∧
    (putShirtSizes st newSizes).audit.take st.audit.length = st.audit ∧
    (putShirtSizes st newSizes).audit.getLast? =
      some { action := "updated", old_data := st.shirt_sizes, new_data := newSizes } := by
  refine ⟨?_, ?_, ?_⟩
  · simp [putShirtSizes]
  · simp [putShirtSizes]
  · simp [putShirtSizes]

theorem find?_factorId_eq_some (l : List SelFactor)
    (hnodup : (l.map SelFactor.factorId).Nodup) (x : SelFactor) (hx : x ∈ l) :
    l.find? (fun y => y.factorId = x.factorId) = some x := by
  induction l with
  | nil => cases hx
  | cons a rest ih =>
    rw [List.map_cons, List.nodup_cons] at hnodup
    by_cases hk : a.factorId = x.factorId
    · have hax : a = x := by
        rcases List.mem_cons.mp hx with h | h
        · exact h.symm
        · exact absurd (hk ▸ List.mem_map_of_mem SelFactor.factorId h) hnodup.1
      rw [List.find?_cons_of_pos _ (by simpa using hk), hax]
    · have hx' : x ∈ rest := by
        rcases List.mem_cons.mp hx with h | h
        · exact absurd (h ▸ rfl) hk
        · exact h
      rw [List.find?_cons_of_neg _ (by simpa using hk)]
      exact ih hnodup.2 hx'

theorem factorsDiff_of_perm (oldF newF : List SelFactor) (hperm : oldF.Perm newF)
    (hnodup : (oldF.map SelFactor.factorId).Nodup) :
    factorsDiff oldF newF = [] := by
  have hnodupN : (newF.map SelFactor.factorId).Nodup :=
    ((hperm.map SelFactor.factorId).nodup_iff).mp hnodup
  unfold factorsDiff
  split
  · rfl
  · refine List.append_eq_nil.mpr ⟨List.filterMap_eq_nil_iff.mpr ?_, List.filterMap_eq_nil_iff.mpr ?_⟩
    · intro nf hnf
      rw [find?_factorId_eq_some oldF hnodup nf (hperm.mem_iff.mpr hnf)]
      simp
    · intro oldFactor hof
      rw [find?_factorId_eq_some newF hnodupN oldFactor (hperm.mem_iff.mp hof)]

theorem nodup_key_split (pre post : List SelFactor) (f : SelFactor)
    (hnodup : ((pre ++ f :: post).map SelFactor.factorId).Nodup) :
    (∀ x ∈ pre, x.factorId ≠ f.factorId) ∧ (∀ x ∈ post, x.factorId ≠ f.factorId) := by
  rw [List.map_append, List.map_cons] at hnodup
  constructor
  · intro x hx heq
    exact List.disjoint_of_nodup_append hnodup
      (heq ▸ List.mem_map_of_mem SelFactor.factorId hx) (List.mem_cons_self _ _)
  · intro x hx heq
    have h2 : (f.factorId :: post.map SelFactor.factorId).Nodup := hnodup.of_append_right
    rw [List.nodup_cons] at h2
    exact h2.1 (heq ▸ List.mem_map_of_mem SelFactor.factorId hx)

theorem factorsDiff_single_replace (pre post : List SelFactor) (f f' : SelFactor)
    (hnodup : ((pre ++ f :: post).map SelFactor.factorId).Nodup)
    (hkey : f'.factorId = f.factorId) (hne : f' ≠ f) :
    factorsDiff (pre ++ f :: post) (pre ++ f' :: post) =
      if f.quantity ≠ f'.quantity then
        [DiffLine.changedQuantity f'.name f.quantity f'.quantity]
      else [] := by
  obtain ⟨hpre, hpost⟩ := nodup_key_split pre post f hnodup
  have hkeys : ((pre ++ f' :: post).map SelFactor.factorId) =
      ((pre ++ f :: post).map SelFactor.factorId) := by
    simp [hkey]
  have hnodupN : ((pre ++ f' :: post).map SelFactor.factorId).Nodup := by
    rw [hkeys]; exact hnodup
  have hmemf : f ∈ pre ++ f :: post := List.mem_append_right _ (List.mem_cons_self _ _)
  have hmemf' : f' ∈ pre ++ f' :: post := List.mem_append_right _ (List.mem_cons_self _ _)
  unfold factorsDiff
  split
  · next hEq =>
    exfalso
    have hperm : (pre ++ f :: post).Perm (pre ++ f' :: post) := by
      have h1 : (sortByFactorId (pre ++ f :: post)).Perm (pre ++ f :: post) :=
        List.perm_insertionSort _ _
      have h2 : (sortByFactorId (pre ++ f' :: post)).Perm (pre ++ f' :: post) :=
        List.perm_insertionSort _ _
      rw [hEq] at h1
      exact h1.symm.trans h2
    have hfmem : f ∈ pre ++ f' :: post := hperm.mem_iff.mp hmemf
    rcases List.mem_append.mp hfmem with h | h
    · exact hpre f h rfl
    · rcases List.mem_cons.mp h with h | h
      · exact hne h.symm
      · exact hpost f h rfl
  · have hfindOld : ∀ x ∈ pre ++ f :: post,
        (pre ++ f :: post).find? (fun y => y.factorId = x.factorId) = some x :=
      fun x hx => find?_factorId_eq_some _ hnodup x hx
    have hfindNew : ∀ x ∈ pre ++ f' :: post,
        (pre ++ f' :: post).find? (fun y => y.factorId = x.factorId) = some x :=
      fun x hx => find?_factorId_eq_some _ hnodupN x hx
    rw [List.filterMap_append, List.filterMap_append, List.filterMap_cons, List.filterMap_cons]
    have hprenil1 : pre.filterMap
        (fun nf =>
          match (pre ++ f :: post).find? (fun oldF => oldF.factorId = nf.factorId) with
          | none => some (DiffLine.addedFactor nf.name nf.quantity)
          | some oldF =>
            if oldF.quantity ≠ nf.quantity then
              some (DiffLine.changedQuantity nf.name oldF.quantity nf.quantity)
            else none) = [] := by
      refine List.filterMap_eq_nil_iff.mpr fun x hx => ?_
      rw [hfindOld x (List.mem_append_left _ hx)]
      simp
    have hpostnil1 : post.filterMap
        (fun nf =>
          match (pre ++ f :: post).find? (fun oldF => oldF.factorId = nf.factorId) with
          | none => some (DiffLine.addedFactor nf.name nf.quantity)
          | some oldF =>
            if oldF.quantity ≠ nf.quantity then
              some (DiffLine.changedQuantity nf.name oldF.quantity nf.quantity)
            else none) = [] := by
      refine List.filterMap_eq_nil_iff.mpr fun x hx => ?_
      rw [hfindOld x (List.mem_append_right _ (List.mem_cons_of_mem _ hx))]
      simp
    have hprenil2 : pre.filterMap
        (fun oldF =>
          match (pre ++ f' :: post).find? (fun nf => nf.factorId = oldF.factorId) with
          | none => some (DiffLine.removedFactor oldF.name oldF.quantity)
          | some _ => none) = [] := by
      refine List.filterMap_eq_nil_iff.mpr fun x hx => ?_
      rw [hfindNew x (List.mem_append_left _ hx)]
    have hpostnil2 : post.filterMap
        (fun oldF =>
          match (pre ++ f' :: post).find? (fun nf => nf.factorId = oldF.factorId) with
          | none => some (DiffLine.removedFactor oldF.name oldF.quantity)
          | some _ => none) = [] := by
      refine List.filterMap_eq_nil_iff.mpr fun x hx => ?_
      rw [hfindNew x (List.mem_append_right _ (List.mem_cons_of_mem _ hx))]
    have hfindf' : (pre ++ f :: post).find? (fun y => y.factorId = f'.factorId) = some f := by
      have : (fun y : SelFactor => decide (y.factorId = f'.factorId)) =
          (fun y : SelFactor => decide (y.factorId = f.factorId)) := by
        funext y; rw [hkey]
      rw [this]
      exact hfindOld f hmemf
    have hfindf : (pre ++ f' :: post).find? (fun y => y.factorId = f.factorId) = some f' := by
      have : (fun y : SelFactor => decide (y.factorId = f.factorId)) =
          (fun y : SelFactor => decide (y.factorId = f'.factorId)) := by
        funext y; rw [hkey]
      rw [this]
      exact hfindNew f' hmemf'
    rw [hprenil1, hpostnil1, hprenil2, hpostnil2]
    simp only [hfindf', hfindf]
    by_cases hq : f.quantity ≠ f'.quantity
    · rw [if_pos hq, if_pos hq]
      simp
    · rw [if_neg hq, if_neg hq]
      simp

theorem getAuditDiffs_withFactors (rtList : List ResourceType) (s : AuditSnapshot)
    (oldF newF : List SelFactor) :
    getAuditDiffs rtList { s with selected_factors := oldF }
      { s with selected_factors := newF } = factorsDiff oldF newF := by
  have hcat : categoriesDiff s.categories s.categories = [] := by
    unfold categoriesDiff
    have hfe : s.categories.filter (fun cat => !(s.categories.contains cat)) = [] := by
      rw [List.filter_eq_nil_iff]
      intro a ha
      simp [ha]
    simp [hfe]
  unfold getAuditDiffs
  simp only [strFieldDiff, numFieldDiff, dateFieldDiff, hoursStrFieldDiff, manualDiff]
  rw [hcat]
  simp

/-- C5.  The audit differ compares selected-factor lists as sets keyed by
`factorId` (the ids being distinct): two snapshots that differ only in the
order of the same selected factors produce no diff line; and when one factor's
quantity alone changes, exactly one changed-quantity line is emitted — not an
added line plus a removed line. -/
theorem getAuditDiffs_factor_set_keyed (rtList : List ResourceType) (s : AuditSnapshot)
    (oldF newF : List SelFactor)
    (hnodup : (oldF.map SelFactor.factorId).Nodup) :
    (oldF.Perm newF →
      getAuditDiffs rtList { s with selected_factors := oldF }
        { s with selected_factors := newF } = []) ∧
    (∀ pre post f q', oldF = pre ++ f :: post →
      newF = pre ++ { f with quantity := q' } :: post →
      f.quantity ≠ q' →
      getAuditDiffs rtList { s with selected_factors := oldF }
        { s with selected_factors := newF } =
        [DiffLine.changedQuantity f.name f.quantity q']) := by
  constructor
  · intro hperm
    rw [getAuditDiffs_withFactors, factorsDiff_of_perm oldF newF hperm hnodup]
  · intro pre post f q' hold hnew hqty
    subst hold
    subst hnew
    have hne : ({ f with quantity := q' } : SelFactor) ≠ f := by
      intro h
      exact hqty (congrArg SelFactor.quantity h).symm
    rw [getAuditDiffs_withFactors,
      factorsDiff_single_replace pre post f { f with quantity := q' } hnodup rfl hne,
      if_pos hqty]

/-- C10.  When a factor appears in both lists with the same `factorId` and the
same quantity but a different cached `name` or a different
`hoursPerResourceType` snapshot (the rest of the two snapshots being
identical), the differ emits no line at all, even though the snapshots differ. -/
theorem getAuditDiffs_snapshot_change_invisible (rtList : List ResourceType)
    (s : AuditSnapshot) (pre post : List SelFactor) (f f' : SelFactor)
    (hnodup : ((pre ++ f :: post).map SelFactor.factorId).Nodup)
    (hkey : f'.factorId = f.factorId) (hqty : f'.quantity = f.quantity) (hne : f' ≠ f) :
    getAuditDiffs rtList { s with selected_factors := pre ++ f :: post }
      { s with selected_factors := pre ++ f' :: post } = [] ∧
    ({ s with selected_factors := pre ++ f :: post } : AuditSnapshot) ≠
      { s with selected_factors := pre ++ f' :: post } := by
  constructor
  · rw [getAuditDiffs_withFactors,
      factorsDiff_single_replace pre post f f' hnodup hkey hne, if_neg]
    simp [hqty]
  · intro h
    have hl : pre ++ f :: post = pre ++ f' :: post :=
      congrArg AuditSnapshot.selected_factors h
    have hc : f :: post = f' :: post := List.append_cancel_left hl
    exact hne (List.head_eq_of_cons_eq hc).symm

/-- C4 (amended).  On an initiative update, a new audit entry is appended to
the journal if and only if the serialized old and new tracked-field snapshots
differ (`JSON.stringify` comparison) — not if and only if the audit differ's
change list is non-empty; when the snapshots serialize identically the journal
is returned unchanged. -/
theorem putJournalEntries_append_iff (j : List JournalEntry) (o n : AuditSnapshot) :
    (putJournalEntries j o n = j ++ [JournalEntry.audit "updated" o n] ↔ o ≠ n) ∧
    (putJournalEntries j o n = j ↔ o = n) := by
  by_cases h : o = n
  · subst h
    constructor
    · simp [putJournalEntries]
    · simp [putJournalEntries]
  · constructor
    · simp [putJournalEntries, h]
    · simp [putJournalEntries, h]

/-- A concrete base snapshot used in the audit-differ counterexamples. -/
def baseSnap : AuditSnapshot :=
  { name := some "Initiative", custom_id := none, description := none, priority := none,
    priority_num := none, status := some "New", estimation_type := none,
    classification := none, scope := none, out_of_scope := none,
    computed_hours := some "16.0", shirt_size := some "XS",
    start_date := none, end_date := none, estimated_duration := none,
    categories := [], selected_factors := [], manual_resources := ⟨[], []⟩ }

/-- A concrete selected factor. -/
def factorA : SelFactor :=
  { factorId := "A", quantity := some 1, name := "Alpha",
    hoursPerResourceType := some [("dev", 8)] }

/-- Another concrete selected factor with a different `factorId`. -/
def factorB : SelFactor :=
  { factorId := "B", quantity := some 2, name := "Beta",
    hoursPerResourceType := some [("dev", 4)] }

/-- Witness for `getAuditDiffs_factor_set_keyed`: the concrete factor lists
`[factorA, factorB]` and `[factorB, factorA]` with distinct factor ids. -/
theorem getAuditDiffs_factor_set_keyed_witness :
    (([factorA, factorB].map SelFactor.factorId).Nodup) ∧
    ((([factorA, factorB] : List SelFactor).Perm [factorB, factorA] →
      getAuditDiffs [] { baseSnap with selected_factors := [factorA, factorB] }
        { baseSnap with selected_factors := [factorB, factorA] } = []) ∧
    (∀ pre post f q', ([factorA, factorB] : List SelFactor) = pre ++ f :: post →
      ([factorB, factorA] : List SelFactor) = pre ++ { f with quantity := q' } :: post →
      f.quantity ≠ q' →
      getAuditDiffs [] { baseSnap with selected_factors := [factorA, factorB] }
        { baseSnap with selected_factors := [factorB, factorA] } =
        [DiffLine.changedQuantity f.name f.quantity q'])) :=
  ⟨by simp [factorA, factorB],
   getAuditDiffs_factor_set_keyed [] baseSnap [factorA, factorB] [factorB, factorA]
     (by simp [factorA, factorB])⟩

/-- A copy of `factorA` whose cached name and hours snapshot changed but whose
`factorId` and quantity are unchanged. -/
def factorA2 : SelFactor :=
  { factorId := "A", quantity := some 1, name := "Alpha renamed",
    hoursPerResourceType := some [("dev", 12)] }

/-- Witness for `getAuditDiffs_snapshot_change_invisible`: `factorA` replaced
by `factorA2` (same id and quantity, different cached name and snapshot). -/
theorem getAuditDiffs_snapshot_change_invisible_witness :
    ((([] ++ factorA :: ([] : List SelFactor)).map SelFactor.factorId).Nodup ∧
     factorA2.factorId = factorA.factorId ∧ factorA2.quantity = factorA.quantity ∧
     factorA2 ≠ factorA) ∧
    (getAuditDiffs [] { baseSnap with selected_factors := [] ++ factorA :: [] }
        { baseSnap with selected_factors := [] ++ factorA2 :: [] } = [] ∧
      ({ baseSnap with selected_factors := [] ++ factorA :: [] } : AuditSnapshot) ≠
        { baseSnap with selected_factors := [] ++ factorA2 :: [] }) :=
  ⟨⟨by simp [factorA], rfl, rfl, by
      intro h
      have : ("Alpha renamed" : String) = "Alpha" := congrArg SelFactor.name h
      simp at this⟩,
   getAuditDiffs_snapshot_change_invisible [] baseSnap [] [] factorA factorA2
     (by simp [factorA]) rfl rfl
     (by
       intro h
       have : ("Alpha renamed" : String) = "Alpha" := congrArg SelFactor.name h
       simp at this)⟩

/-- C4 counterexample.  Two snapshots holding the same selected factors in a
different order: the audit differ reports no changes (empty change list,
`hasChanges` false), yet the PUT handler appends a new audit entry because the
serialized snapshots differ — so "appended iff the diff reports changes" fails. -/
theorem putJournalEntries_appends_without_diff :
    getAuditDiffs [] { baseSnap with selected_factors := [factorA, factorB] }
      { baseSnap with selected_factors := [factorB, factorA] } = [] ∧
    putJournalEntries [] { baseSnap with selected_factors := [factorA, factorB] }
      { baseSnap with selected_factors := [factorB, factorA] } =
      [JournalEntry.audit "updated"
        { baseSnap with selected_factors := [factorA, factorB] }
        { baseSnap with selected_factors := [factorB, factorA] }] := by
  have hAB : factorA ≠ factorB := by
    intro h
    have : "A" = "B" := congrArg SelFactor.factorId h
    simp at this
  constructor
  · rw [getAuditDiffs_withFactors]
    exact factorsDiff_of_perm _ _ (List.Perm.swap factorB factorA [])
      (by simp [factorA, factorB])
  · rw [putJournalEntries, if_pos]
    · rfl
    · intro h
      have hl : [factorA, factorB] = [factorB, factorA] :=
        congrArg AuditSnapshot.selected_factors h
      exact hAB (List.head_eq_of_cons_eq hl)

end Estiim
